import Mathlib

/-!
Shallow embedding of `lidder.go` (package main of the lidder repository).

Modelling conventions:
* Go `map[string]bool` values, always stored with value `true`, are plain
  string sets; they are embedded as `Finset String`.
* A compiled regular expression (`*regexp.Regexp`) is external to the
  repository; its observable behaviour here is its `Match` method, embedded
  as an abstract matcher `String → Bool`.  `regexp.Compile` is likewise
  abstracted as a parameter `compile : String → Except RegexError Matcher`;
  `RegexError` mirrors Go's `regexp.Error`, which carries the offending
  expression in its `Expr` field.
* File contents are `String`s; the buffered `ReadString('\n')` loop of
  `matchAgainstFile` is embedded character by character in `readLinesAux`.
* The file system traversed by `exploreDir` is embedded as a tree `FS`;
  I/O failures (unreadable directory, unopenable file) are explicit
  constructors, and the traversal returns `Except String Defs` exactly
  where the Go code returns `error`.
-/

namespace Lidder

/-- Matcher abstraction of a compiled `*regexp.Regexp` (its `Match` method). -/
def Matcher : Type := String → Bool

/-- Embeds Go struct `rule` (lidder.go lines 36-43): YAML fields `Pattern`
and `Expected`, the compiled `pattern`, and the two path sets. -/
structure Rule where
  Pattern : String
  Expected : List String
  pattern : Matcher
  expectedFilenames : Finset String
  actualFilenames : Finset String

/-- Embeds Go struct `defs` (lidder.go lines 27-34).  The Go field names
`include`/`exclude` for the compiled pattern lists collide with a Lean
keyword, so they are rendered `includeRe`/`excludeRe`. -/
structure Defs where
  Include : List String
  Exclude : List String
  Rules : List Rule
  includeRe : List Matcher
  excludeRe : List Matcher

/-- Default rule value, used only as the fallback of `List.getD`. -/
def defaultRule : Rule :=
  { Pattern := "", Expected := [], pattern := fun _ => false,
    expectedFilenames := ∅, actualFilenames := ∅ }

/-- Embeds `adjustExpectedFilenames` (lidder.go lines 93-101): for every rule
the new expected set is built empty and receives `filename` exactly when the
old set contained it. -/
def adjustExpectedFilenames (d : Defs) (filename : String) : Defs :=
  { d with Rules := d.Rules.map fun r =>
      { r with expectedFilenames :=
          if filename ∈ r.expectedFilenames then {filename} else ∅ } }

/-- Embeds the `rule.Mismatches` method (lidder.go lines 103-119): first
component collects the actual files that are not expected
(`shouldNotBeThere`), second the expected files that are not actual
(`shouldBeThere`).  The Go code accumulates slices by iterating the maps;
as sets this is exactly a filter by non-membership. -/
def Mismatches (r : Rule) : Finset String × Finset String :=
  (r.actualFilenames.filter (fun actual => actual ∉ r.expectedFilenames),
   r.expectedFilenames.filter (fun expected => expected ∉ r.actualFilenames))

/-- Embeds the per-rule failure test of `main` (lidder.go line 226):
`len(shouldNotBeThere) != 0 || len(shouldBeThere) != 0`. -/
def ruleFails (r : Rule) : Bool :=
  (Mismatches r).1.card != 0 || (Mismatches r).2.card != 0

/-- Embeds the loop body of `matchAgainstLine` for one rule
(lidder.go lines 124-126). -/
def ruleLine (filename line : String) (r : Rule) : Rule :=
  if r.pattern line then
    { r with actualFilenames := insert filename r.actualFilenames }
  else r

/-- Embeds `matchAgainstLine` (lidder.go lines 121-128): every rule of the
list is tested against the line, matches record the filename. -/
def matchAgainstLine (d : Defs) (filename line : String) : Defs :=
  { d with Rules := d.Rules.map (ruleLine filename line) }

/-- Embeds the `bufio.Reader.ReadString('\n')` loop of `matchAgainstFile`
(lidder.go lines 137-147) on an in-memory character stream.  `acc` is the
data of the line read so far.  When the stream is exhausted before a
newline is found, `ReadString` returns the pending data together with
`io.EOF`, and the Go loop returns `nil` without processing that data
(`if err == io.EOF { return nil }`): the `[]` branch therefore drops `acc`. -/
def readLinesAux (acc : List Char) : List Char → List (List Char)
  | [] => []
  | c :: cs =>
    if c = '\n' then (acc ++ [c]) :: readLinesAux [] cs
    else readLinesAux (acc ++ [c]) cs

/-- The sequence of lines `matchAgainstFile` passes to `matchAgainstLine`
for a file with the given content: the newline-terminated lines, each
including its terminator, in order. -/
def processedLines (content : String) : List String :=
  (readLinesAux [] content.data).map List.asString

/-- Embeds `matchAgainstFile` (lidder.go lines 130-148) on a successfully
opened file with the given content: each processed line is fed to
`matchAgainstLine`. -/
def matchAgainstFileP (d : Defs) (filename content : String) : Defs :=
  (processedLines content).foldl (fun d line => matchAgainstLine d filename line) d

/-- Embeds `shouldCheck` (lidder.go lines 177-192): any exclude match
refuses the file; otherwise any include match accepts it; otherwise the
file is refused. -/
def shouldCheck (d : Defs) (filename : String) : Bool :=
  if d.excludeRe.any (fun exclude => exclude filename) then false
  else d.includeRe.any (fun inc => inc filename)

/-- Scanning a list of `(filename, content)` files in order, as the tree
walk feeds them to `matchAgainstFile`. -/
def scanFiles (d : Defs) (files : List (String × String)) : Defs :=
  files.foldl (fun d fc => matchAgainstFileP d fc.1 fc.2) d

/-- Embeds the single-file mode of `main` (lidder.go lines 212-215):
expectations are narrowed to the target, then only the target is scanned. -/
def singleFileRun (d : Defs) (target content : String) : Defs :=
  matchAgainstFileP (adjustExpectedFilenames d target) target content

/-- Indexing a mapped list with a fallback, below the length. -/
theorem getD_map_lt {α β : Type} (f : α → β) (l : List α) (i : ℕ)
    (da : α) (db : β) (h : i < l.length) :
    (l.map f).getD i db = f (l.getD i da) := by
  simp [List.getD_eq_getElem?_getD, List.getElem?_map, List.getElem?_eq_getElem h]

/-- Claim C2: for every rule, `Mismatches` returns exactly the pair
`(actualFiles \ expectedFiles, expectedFiles \ actualFiles)`, and the rule
passes (the failure test of `main` is false) iff both sets are empty. -/
theorem Mismatches_eq_sdiff_and_pass_iff_empty (r : Rule) :
    Mismatches r = (r.actualFilenames \ r.expectedFilenames,
                    r.expectedFilenames \ r.actualFilenames) ∧
    (ruleFails r = false ↔ (Mismatches r).1 = ∅ ∧ (Mismatches r).2 = ∅) := by
  constructor
  · simp [Mismatches, Finset.sdiff_eq_filter]
  · simp [ruleFails, Finset.card_eq_zero]

/-- Claim C3: `shouldCheck` returns false whenever some exclude pattern
matches (exclusion overrides inclusion); absent any exclude match it returns
the include-pattern test; and with no include match it returns false
regardless of the exclude patterns (default-deny). -/
theorem shouldCheck_exclude_include_default_deny (d : Defs) (path : String) :
    (d.excludeRe.any (fun exclude => exclude path) = true →
      shouldCheck d path = false) ∧
    (d.excludeRe.any (fun exclude => exclude path) = false →
      shouldCheck d path = d.includeRe.any (fun inc => inc path)) ∧
    (d.includeRe.any (fun inc => inc path) = false →
      shouldCheck d path = false) := by
  refine ⟨fun h => by simp [shouldCheck, h], fun h => by simp [shouldCheck, h], fun h => ?_⟩
  by_cases he : d.excludeRe.any (fun exclude => exclude path) <;> simp [shouldCheck, he, h]

/-- Sample definitions value with one include matcher, one exclude matcher
and no rules, used to instantiate the `shouldCheck` theorem. -/
def defsPF : Defs :=
  { Include := ["inc"], Exclude := ["exc"], Rules := []
    includeRe := [fun s => s == "both" || s == "ok"]
    excludeRe := [fun s => s == "both"] }

/-- Witness for claim C3 at concrete inputs: a path matched by both lists is
refused, and a path matched by neither list is refused. -/
theorem shouldCheck_exclude_include_default_deny_witness :
    shouldCheck defsPF "both" = false ∧ shouldCheck defsPF "miss" = false :=
  ⟨(shouldCheck_exclude_include_default_deny defsPF "both").1 (by decide),
   (shouldCheck_exclude_include_default_deny defsPF "miss").2.2 (by decide)⟩

/-- Claim C4: `adjustExpectedFilenames` keeps the rule list's length and
replaces every rule's expected set with `{target}` when the target was in
the original expected set and with `∅` otherwise, leaving the rule's
pattern data and actual set untouched. -/
theorem adjustExpectedFilenames_narrows (d : Defs) (target : String) :
    (adjustExpectedFilenames d target).Rules.length = d.Rules.length ∧
    ∀ i, i < d.Rules.length →
      ((adjustExpectedFilenames d target).Rules.getD i defaultRule).expectedFilenames =
        (if target ∈ (d.Rules.getD i defaultRule).expectedFilenames
         then {target} else ∅) ∧
      ((adjustExpectedFilenames d target).Rules.getD i defaultRule).Pattern =
        (d.Rules.getD i defaultRule).Pattern ∧
      ((adjustExpectedFilenames d target).Rules.getD i defaultRule).actualFilenames =
        (d.Rules.getD i defaultRule).actualFilenames := by
  refine ⟨by simp [adjustExpectedFilenames], fun i hi => ?_⟩
  rw [show (adjustExpectedFilenames d target).Rules = d.Rules.map (fun r =>
      { r with expectedFilenames :=
          if target ∈ r.expectedFilenames then {target} else ∅ }) from rfl]
  rw [getD_map_lt _ _ _ defaultRule _ hi]
  exact ⟨rfl, rfl, rfl⟩

/-- Sample definitions value with two rules, used to instantiate the
single-file narrowing theorem: the first rule expects `a.go` and `b.go`,
the second expects only `a.go`. -/
def defsNar : Defs :=
  { Include := [], Exclude := [], Rules :=
      [{ Pattern := "TODO", Expected := ["a.go", "b.go"]
         pattern := fun line => line == "TODO"
         expectedFilenames := {"a.go", "b.go"}, actualFilenames := ∅ },
       { Pattern := "FIXME", Expected := ["a.go"]
         pattern := fun line => line == "FIXME"
         expectedFilenames := {"a.go"}, actualFilenames := ∅ }]
    includeRe := [], excludeRe := [] }

/-- Witness for claim C4: narrowing `defsNar` to `b.go` at rule index 1
(whose expected set does not contain `b.go`). -/
theorem adjustExpectedFilenames_narrows_witness :
    ((adjustExpectedFilenames defsNar "b.go").Rules.getD 1 defaultRule).expectedFilenames =
      (if "b.go" ∈ (defsNar.Rules.getD 1 defaultRule).expectedFilenames
       then {"b.go"} else ∅) ∧
    ((adjustExpectedFilenames defsNar "b.go").Rules.getD 1 defaultRule).Pattern =
      (defsNar.Rules.getD 1 defaultRule).Pattern ∧
    ((adjustExpectedFilenames defsNar "b.go").Rules.getD 1 defaultRule).actualFilenames =
      (defsNar.Rules.getD 1 defaultRule).actualFilenames :=
  (adjustExpectedFilenames_narrows defsNar "b.go").2 1 (by decide)

/-- `ruleLine` never changes the compiled pattern of a rule. -/
theorem ruleLine_pattern (filename line : String) (r : Rule) :
    (ruleLine filename line r).pattern = r.pattern := by
  unfold ruleLine; split <;> rfl

/-- Matching one line twice for the same rule records the filename only
once: the per-rule update is idempotent. -/
theorem ruleLine_idem (filename line : String) (r : Rule) :
    ruleLine filename line (ruleLine filename line r) = ruleLine filename line r := by
  unfold ruleLine
  cases hp : r.pattern line <;> simp [hp, Finset.insert_idem]

/-- Claim C5: `matchAgainstLine` keeps the rule list's length; for EVERY
rule index (no short-circuiting on an earlier match) the updated actual
set contains a path iff it was already there or the path is the scanned
filename and that rule's pattern matches the line; and repeating the same
match leaves the state unchanged (set semantics absorb repeats). -/
theorem matchAgainstLine_all_rules (d : Defs) (filename line : String) :
    (matchAgainstLine d filename line).Rules.length = d.Rules.length ∧
    (∀ i, i < d.Rules.length → ∀ p : String,
      (p ∈ ((matchAgainstLine d filename line).Rules.getD i defaultRule).actualFilenames ↔
        p ∈ (d.Rules.getD i defaultRule).actualFilenames ∨
          (p = filename ∧ (d.Rules.getD i defaultRule).pattern line = true))) ∧
    matchAgainstLine (matchAgainstLine d filename line) filename line =
      matchAgainstLine d filename line := by
  refine ⟨by simp [matchAgainstLine], fun i hi p => ?_, ?_⟩
  · rw [show (matchAgainstLine d filename line).Rules =
        d.Rules.map (ruleLine filename line) from rfl]
    rw [getD_map_lt _ _ _ defaultRule _ hi]
    generalize d.Rules.getD i defaultRule = r0
    cases hp : r0.pattern line <;> simp [ruleLine, hp, or_comm]
  · show ({ d with Rules := List.map (ruleLine filename line) (List.map (ruleLine filename line) d.Rules) } : Defs) = { d with Rules := d.Rules.map (ruleLine filename line) }
    rw [List.map_map]
    have h2 : (ruleLine filename line ∘ ruleLine filename line) = ruleLine filename line := by
      funext r; exact ruleLine_idem filename line r
    rw [h2]

/-- Sample definitions value with two rules whose patterns both match the
line `"x"`, used to instantiate the `matchAgainstLine` theorem. -/
def defsML : Defs :=
  { Include := [], Exclude := [], Rules :=
      [{ Pattern := "x", Expected := [], pattern := fun line => line == "x"
         expectedFilenames := ∅, actualFilenames := ∅ },
       { Pattern := "x|y", Expected := [], pattern := fun line => line == "x" || line == "y"
         expectedFilenames := ∅, actualFilenames := ∅ }]
    includeRe := [], excludeRe := [] }

/-- Witness for claim C5: the second rule also records the file even though
the first rule already matched the same line. -/
theorem matchAgainstLine_all_rules_witness :
    "f.go" ∈ ((matchAgainstLine defsML "f.go" "x").Rules.getD 1 defaultRule).actualFilenames ↔
      "f.go" ∈ (defsML.Rules.getD 1 defaultRule).actualFilenames ∨
        ("f.go" = "f.go" ∧ (defsML.Rules.getD 1 defaultRule).pattern "x" = true) :=
  (matchAgainstLine_all_rules defsML "f.go" "x").2.1 1 (by decide) "f.go"

/-- A stream holding no newline yields no processed line: the pending data
is returned together with `io.EOF` and the loop exits without passing it to
`matchAgainstLine`. -/
theorem readLinesAux_no_newline (tail : List Char) (h : '\n' ∉ tail) (acc : List Char) :
    readLinesAux acc tail = [] := by
  induction tail generalizing acc with
  | nil => rfl
  | cons c cs ih =>
    have hc : ¬ c = '\n' := fun e => h (by simp [e])
    simp only [readLinesAux, if_neg hc]
    exact ih (fun hm => h (List.mem_cons_of_mem _ hm)) _

/-- Appending newline-free data to a stream does not change the processed
lines. -/
theorem readLinesAux_append_no_newline (xs tail : List Char) (h : '\n' ∉ tail)
    (acc : List Char) : readLinesAux acc (xs ++ tail) = readLinesAux acc xs := by
  induction xs generalizing acc with
  | nil => exact readLinesAux_no_newline tail h acc
  | cons c cs ih =>
    by_cases hc : c = '\n' <;> simp only [List.cons_append, readLinesAux, hc] <;>
      simp [ih]

/-- Claim C1 (counterexample): a file whose whole content is the single
unterminated line `"foo"`, against a rule whose pattern matches exactly
that line; the pattern matches the final partial line, yet after
`matchAgainstFile` the file's path is NOT in the rule's actualFiles set. -/
theorem matchAgainstFile_drops_final_line_cex :
    ({ Pattern := "foo", Expected := [], pattern := fun line => line == "foo",
       expectedFilenames := ∅, actualFilenames := ∅ } : Rule).pattern "foo" = true ∧
    "f.txt" ∉ ((matchAgainstFileP
      { Include := [], Exclude := [], Rules :=
          [{ Pattern := "foo", Expected := [], pattern := fun line => line == "foo",
             expectedFilenames := ∅, actualFilenames := ∅ }],
        includeRe := [], excludeRe := [] } "f.txt" "foo").Rules.getD 0
        defaultRule).actualFilenames := by
  refine ⟨rfl, ?_⟩
  show "f.txt" ∉ (∅ : Finset String)
  exact Finset.not_mem_empty _

/-- Claim C1 (amended): `matchAgainstFile` does NOT process a final partial
line without a trailing newline — `ReadString('\n')` hands that data back
together with `io.EOF` and the loop returns before invoking
`matchAgainstLine` on it.  Hence appending an unterminated tail to any
content leaves the scan result unchanged, so a rule whose pattern matches
only the unterminated last line does not record the file's path. -/
theorem matchAgainstFile_final_partial_line_unprocessed (d : Defs) (filename : String)
    (xs tail : List Char) (h : '\n' ∉ tail) :
    matchAgainstFileP d filename (List.asString (xs ++ tail)) =
      matchAgainstFileP d filename (List.asString xs) := by
  unfold matchAgainstFileP processedLines
  rw [show (List.asString (xs ++ tail)).data = xs ++ tail from rfl]
  rw [show (List.asString xs).data = xs from rfl]
  rw [readLinesAux_append_no_newline xs tail h]

/-- Witness for amended claim C1: appending the unterminated tail `"foo"`
to the content `"a\n"` does not change the scan result. -/
theorem matchAgainstFile_final_partial_line_unprocessed_witness :
    matchAgainstFileP defsML "f.go" (List.asString ("a\n".data ++ "foo".data)) =
      matchAgainstFileP defsML "f.go" (List.asString "a\n".data) :=
  matchAgainstFile_final_partial_line_unprocessed defsML "f.go" "a\n".data "foo".data
    (by decide)

/-- Claim C6: the two components of `Mismatches` are disjoint. -/
theorem Mismatches_disjoint (r : Rule) :
    Disjoint (Mismatches r).1 (Mismatches r).2 := by
  rw [Finset.disjoint_left]
  intro a h1 h2
  simp [Mismatches] at h1 h2
  exact h1.2 h2.1

/-- Net effect of scanning one file's processed lines on one rule. -/
def ruleFile (filename : String) (lines : List String) (r : Rule) : Rule :=
  lines.foldl (fun r line => ruleLine filename line r) r

/-- Closed form of the net effect of one file on one rule: the filename is
recorded iff some processed line matches the rule's pattern. -/
def ruleScan (filename content : String) (r : Rule) : Rule :=
  if (processedLines content).any (fun line => r.pattern line) then
    { r with actualFilenames := insert filename r.actualFilenames }
  else r

/-- Folding `matchAgainstLine` over lines acts rule by rule. -/
theorem foldl_matchAgainstLine (d : Defs) (filename : String) (lines : List String) :
    lines.foldl (fun d line => matchAgainstLine d filename line) d =
      { d with Rules := d.Rules.map (ruleFile filename lines) } := by
  induction lines generalizing d with
  | nil =>
    have h0 : ruleFile filename [] = fun r => r := funext fun r => rfl
    rw [h0, List.map_id']
    rfl
  | cons l ls ih =>
    rw [List.foldl_cons, ih]
    show ({ d with Rules := List.map (ruleFile filename ls) (List.map (ruleLine filename l) d.Rules) } : Defs) = _
    rw [List.map_map]
    rfl

/-- The per-rule file effect only inserts the filename, and does so exactly
when some line matches. -/
theorem ruleFile_eq_ruleScan (filename : String) (lines : List String) (r : Rule) :
    ruleFile filename lines r =
      (if lines.any (fun line => r.pattern line) then
        { r with actualFilenames := insert filename r.actualFilenames }
       else r) := by
  induction lines generalizing r with
  | nil => simp [ruleFile]
  | cons l ls ih =>
    show ruleFile filename ls (ruleLine filename l r) = _
    rw [ih]
    cases hp : r.pattern l with
    | false => simp [ruleLine, hp]
    | true => simp [ruleLine, hp, Finset.insert_idem]

/-- Closed form of `matchAgainstFile`: each rule independently gains the
filename in its actual set exactly when some processed line of the file
matches its pattern; nothing else changes. -/
theorem matchAgainstFileP_eq (d : Defs) (filename content : String) :
    matchAgainstFileP d filename content =
      { d with Rules := d.Rules.map (ruleScan filename content) } := by
  unfold matchAgainstFileP
  rw [foldl_matchAgainstLine]
  have h2 : ruleFile filename (processedLines content) = ruleScan filename content := by
    funext r
    rw [ruleFile_eq_ruleScan]
    rfl
  rw [h2]

/-- `ruleScan` never changes the compiled pattern of a rule. -/
theorem ruleScan_pattern (filename content : String) (r : Rule) :
    (ruleScan filename content r).pattern = r.pattern := by
  unfold ruleScan; split <;> rfl

/-- Two file scans of one rule commute. -/
theorem ruleScan_comm (f₁ c₁ f₂ c₂ : String) (r : Rule) :
    ruleScan f₂ c₂ (ruleScan f₁ c₁ r) = ruleScan f₁ c₁ (ruleScan f₂ c₂ r) := by
  unfold ruleScan
  cases h₁ : (processedLines c₁).any (fun line => r.pattern line) <;>
    cases h₂ : (processedLines c₂).any (fun line => r.pattern line) <;>
      simp [h₁, h₂, Finset.Insert.comm]

/-- Two whole-file scans commute. -/
theorem matchAgainstFileP_comm (d : Defs) (a b : String × String) :
    matchAgainstFileP (matchAgainstFileP d a.1 a.2) b.1 b.2 =
      matchAgainstFileP (matchAgainstFileP d b.1 b.2) a.1 a.2 := by
  rw [matchAgainstFileP_eq, matchAgainstFileP_eq, matchAgainstFileP_eq, matchAgainstFileP_eq]
  show ({ d with Rules := List.map (ruleScan b.1 b.2) (List.map (ruleScan a.1 a.2) d.Rules) } : Defs) = { d with Rules := List.map (ruleScan a.1 a.2) (List.map (ruleScan b.1 b.2) d.Rules) }
  rw [List.map_map, List.map_map]
  have h2 : (ruleScan b.1 b.2 ∘ ruleScan a.1 a.2) = (ruleScan a.1 a.2 ∘ ruleScan b.1 b.2) := by
    funext r; exact ruleScan_comm a.1 a.2 b.1 b.2 r
  rw [h2]

/-- Scanning the same set of files in any order yields the same state. -/
theorem scanFiles_perm (d : Defs) (files₁ files₂ : List (String × String))
    (h : List.Perm files₁ files₂) : scanFiles d files₁ = scanFiles d files₂ :=
  List.Perm.foldl_eq' h (fun x _ y _ z => matchAgainstFileP_comm z x y) d

/-- Claim C10: in single-file mode — expectations narrowed to the target,
then only the target scanned on the fresh state `parse` produced (all
actual sets empty) — at most one of the two `Mismatches` components of any
rule is non-empty. -/
theorem singleFileRun_mutually_exclusive (d : Defs) (target content : String) (i : ℕ)
    (hfresh : ∀ r ∈ d.Rules, r.actualFilenames = ∅) (hi : i < d.Rules.length) :
    (Mismatches ((singleFileRun d target content).Rules.getD i defaultRule)).1 = ∅ ∨
    (Mismatches ((singleFileRun d target content).Rules.getD i defaultRule)).2 = ∅ := by
  have hrules : (singleFileRun d target content).Rules =
      d.Rules.map (fun r => ruleScan target content
        { r with expectedFilenames :=
            if target ∈ r.expectedFilenames then {target} else ∅ }) := by
    unfold singleFileRun
    rw [matchAgainstFileP_eq]
    show List.map (ruleScan target content) ((adjustExpectedFilenames d target).Rules) = _
    unfold adjustExpectedFilenames
    rw [show ({ d with Rules := d.Rules.map (fun r => { r with expectedFilenames := if target ∈ r.expectedFilenames then {target} else ∅ }) } : Defs).Rules = d.Rules.map (fun r => { r with expectedFilenames := if target ∈ r.expectedFilenames then {target} else ∅ }) from rfl]
    rw [List.map_map]
    rfl
  rw [hrules, getD_map_lt _ _ _ defaultRule _ hi]
  have hact : (d.Rules.getD i defaultRule).actualFilenames = ∅ := by
    apply hfresh
    rw [List.getD_eq_getElem _ _ hi]
    exact List.getElem_mem hi
  generalize hr0 : d.Rules.getD i defaultRule = r0 at hact hi ⊢
  unfold ruleScan
  by_cases hexp : target ∈ r0.expectedFilenames <;>
    by_cases hm : (processedLines content).any
      (fun line => ({ r0 with expectedFilenames :=
        if target ∈ r0.expectedFilenames then {target} else ∅ } : Rule).pattern line) = true
  · left
    simp [hm, hexp, Mismatches, Finset.filter_singleton, hact]
  · left
    simp [hm, hexp, Mismatches, Finset.filter_singleton, hact]
  · right
    simp [hm, hexp, Mismatches, Finset.filter_singleton, hact]
  · left
    simp [hm, hexp, Mismatches, hact]

/-- Witness for claim C10: narrowing `defsNar` to `a.go` and scanning a
content whose only line matches rule 0; for rule 0 at most one component is
non-empty. -/
theorem singleFileRun_mutually_exclusive_witness :
    (Mismatches ((singleFileRun defsNar "a.go" "TODO\n").Rules.getD 0 defaultRule)).1 = ∅ ∨
    (Mismatches ((singleFileRun defsNar "a.go" "TODO\n").Rules.getD 0 defaultRule)).2 = ∅ :=
  singleFileRun_mutually_exclusive defsNar "a.go" "TODO\n" 0 (by decide) (by decide)

/-- Error type of the external `regexp.Compile`, mirroring Go's
`regexp.Error`, whose `Expr` field carries the failing expression. -/
structure RegexError where
  expr : String
  msg : String
deriving DecidableEq

/-- Raw rule entry of the YAML configuration (lidder.go lines 37-38). -/
structure RawRule where
  Pattern : String
  Expected : List String
deriving DecidableEq

/-- Raw configuration delivered by the external YAML deserializer
(lidder.go lines 28-30). -/
structure RawDefs where
  Include : List String
  Exclude : List String
  Rules : List RawRule
deriving DecidableEq

/-- Embeds one compile loop of `parse` (lidder.go lines 54-61 and 63-70):
compile each pattern in order, returning the first compile error. -/
def compilePats (compile : String → Except RegexError Matcher) :
    List String → Except RegexError (List Matcher)
  | [] => Except.ok []
  | p :: ps =>
    match compile p with
    | Except.error e => Except.error e
    | Except.ok m =>
      match compilePats compile ps with
      | Except.error e => Except.error e
      | Except.ok ms => Except.ok (m :: ms)

/-- Embeds the expected-filenames map initialization of `parse`
(lidder.go lines 84-86). -/
def makeExpected (paths : List String) : Finset String :=
  paths.foldl (fun s p => insert p s) ∅

/-- Embeds the rule compile loop of `parse` (lidder.go lines 72-78),
fused with the map initialization loop (lines 81-87): the two loops
traverse the same list and touch disjoint fields, so their net effect is
one traversal. -/
def compileRules (compile : String → Except RegexError Matcher) :
    List RawRule → Except RegexError (List Rule)
  | [] => Except.ok []
  | rr :: rrs =>
    match compile rr.Pattern with
    | Except.error e => Except.error e
    | Except.ok m =>
      match compileRules compile rrs with
      | Except.error e => Except.error e
      | Except.ok rs =>
        Except.ok ({ Pattern := rr.Pattern, Expected := rr.Expected, pattern := m,
                     expectedFilenames := makeExpected rr.Expected,
                     actualFilenames := ∅ } :: rs)

/-- Embeds `parse` (lidder.go lines 45-90) after the external YAML
deserialization: compile the include patterns, then the exclude patterns,
then the rules, failing on the first compile error; on success build the
fully compiled definitions value. -/
def parse (compile : String → Except RegexError Matcher) (raw : RawDefs) :
    Except RegexError Defs :=
  match compilePats compile raw.Include with
  | Except.error e => Except.error e
  | Except.ok inc =>
    match compilePats compile raw.Exclude with
    | Except.error e => Except.error e
    | Except.ok exc =>
      match compileRules compile raw.Rules with
      | Except.error e => Except.error e
      | Except.ok rs =>
        Except.ok { Include := raw.Include, Exclude := raw.Exclude, Rules := rs,
                    includeRe := inc, excludeRe := exc }

/-- All configured pattern sources, in the order `parse` compiles them. -/
def allPatterns (raw : RawDefs) : List String :=
  raw.Include ++ raw.Exclude ++ raw.Rules.map RawRule.Pattern

/-- The compile error of the first pattern in the list that fails to
compile, if any. -/
def firstCompileError (compile : String → Except RegexError Matcher) :
    List String → Option RegexError
  | [] => none
  | p :: ps =>
    match compile p with
    | Except.error e => some e
    | Except.ok _ => firstCompileError compile ps

/-- If every pattern of a list compiles, the list has no first compile
error. -/
theorem firstCompileError_none (compile : String → Except RegexError Matcher)
    (ps : List String) (h : ∀ q ∈ ps, ∃ m, compile q = Except.ok m) :
    firstCompileError compile ps = none := by
  induction ps with
  | nil => rfl
  | cons p ps ih =>
    obtain ⟨m, hm⟩ := h p (List.mem_cons_self p ps)
    simp only [firstCompileError, hm]
    exact ih (fun q hq => h q (List.mem_cons_of_mem _ hq))

/-- The first compile error of an all-good segment followed by a failing
pattern is that pattern's error. -/
theorem firstCompileError_append (compile : String → Except RegexError Matcher)
    (pre : List String) (p : String) (post : List String) (e : RegexError)
    (hpre : ∀ q ∈ pre, ∃ m, compile q = Except.ok m)
    (hp : compile p = Except.error e) :
    firstCompileError compile (pre ++ p :: post) = some e := by
  induction pre with
  | nil => simp [firstCompileError, hp]
  | cons q qs ih =>
    obtain ⟨m, hm⟩ := hpre q (List.mem_cons_self q qs)
    simp only [List.cons_append, firstCompileError, hm]
    exact ih (fun q' hq' => hpre q' (List.mem_cons_of_mem _ hq'))

/-- `compilePats` fails exactly on the first compile error of its input. -/
theorem compilePats_error_iff (compile : String → Except RegexError Matcher)
    (ps : List String) (e : RegexError) :
    compilePats compile ps = Except.error e ↔
      firstCompileError compile ps = some e := by
  induction ps with
  | nil => simp [compilePats, firstCompileError]
  | cons p ps ih =>
    cases hp : compile p with
    | error e' => simp [compilePats, firstCompileError, hp]
    | ok m =>
      cases hps : compilePats compile ps with
      | error e' =>
        simp only [compilePats, firstCompileError, hp, hps]
        rw [← ih]
        simp [hps]
      | ok ms =>
        simp only [compilePats, firstCompileError, hp, hps]
        rw [← ih]
        simp [hps]

/-- `compileRules` fails exactly on the first compile error of its
patterns. -/
theorem compileRules_error_iff (compile : String → Except RegexError Matcher)
    (rrs : List RawRule) (e : RegexError) :
    compileRules compile rrs = Except.error e ↔
      firstCompileError compile (rrs.map RawRule.Pattern) = some e := by
  induction rrs with
  | nil => simp [compileRules, firstCompileError]
  | cons rr rrs ih =>
    cases hp : compile rr.Pattern with
    | error e' => simp [compileRules, List.map_cons, firstCompileError, hp]
    | ok m =>
      cases hrs : compileRules compile rrs with
      | error e' =>
        simp only [compileRules, List.map_cons, firstCompileError, hp, hrs]
        rw [← ih]
        simp [hrs]
      | ok rs =>
        simp only [compileRules, List.map_cons, firstCompileError, hp, hrs]
        rw [← ih]
        simp [hrs]

/-- A first compile error in a front segment is the first compile error of
the whole list. -/
theorem firstCompileError_append_some (compile : String → Except RegexError Matcher)
    (xs ys : List String) (e : RegexError)
    (h : firstCompileError compile xs = some e) :
    firstCompileError compile (xs ++ ys) = some e := by
  induction xs with
  | nil => simp [firstCompileError] at h
  | cons p ps ih =>
    cases hp : compile p with
    | error e' =>
      simp only [firstCompileError, hp] at h
      simp only [List.cons_append, firstCompileError, hp]
      exact h
    | ok m =>
      simp only [firstCompileError, hp] at h
      simp only [List.cons_append, firstCompileError, hp]
      exact ih h

/-- With an all-good front segment, the first compile error comes from the
rest of the list. -/
theorem firstCompileError_append_none (compile : String → Except RegexError Matcher)
    (xs ys : List String) (h : firstCompileError compile xs = none) :
    firstCompileError compile (xs ++ ys) = firstCompileError compile ys := by
  induction xs with
  | nil => rfl
  | cons p ps ih =>
    cases hp : compile p with
    | error e' => simp [firstCompileError, hp] at h
    | ok m =>
      simp only [firstCompileError, hp] at h
      simp only [List.cons_append, firstCompileError, hp]
      exact ih h

/-- A successful `compilePats` leaves no first compile error. -/
theorem compilePats_ok_none (compile : String → Except RegexError Matcher)
    (ps : List String) (ms : List Matcher)
    (h : compilePats compile ps = Except.ok ms) :
    firstCompileError compile ps = none := by
  cases hf : firstCompileError compile ps with
  | none => rfl
  | some e =>
    rw [← compilePats_error_iff] at hf
    rw [h] at hf
    exact absurd hf (by simp)

/-- A successful `compileRules` leaves no first compile error. -/
theorem compileRules_ok_none (compile : String → Except RegexError Matcher)
    (rrs : List RawRule) (rs : List Rule)
    (h : compileRules compile rrs = Except.ok rs) :
    firstCompileError compile (rrs.map RawRule.Pattern) = none := by
  cases hf : firstCompileError compile (rrs.map RawRule.Pattern) with
  | none => rfl
  | some e =>
    rw [← compileRules_error_iff] at hf
    rw [h] at hf
    exact absurd hf (by simp)

/-- `parse` returns exactly the first compile error of the configured
patterns, in include, exclude, rule order. -/
theorem parse_error_iff (compile : String → Except RegexError Matcher)
    (raw : RawDefs) (e : RegexError) :
    parse compile raw = Except.error e ↔
      firstCompileError compile (allPatterns raw) = some e := by
  unfold parse allPatterns
  rw [List.append_assoc]
  cases hI : compilePats compile raw.Include with
  | error eI =>
    rw [firstCompileError_append_some compile _ _ eI
      ((compilePats_error_iff compile _ eI).mp hI)]
    simp
  | ok msI =>
    rw [firstCompileError_append_none compile _ _ (compilePats_ok_none compile _ _ hI)]
    cases hE : compilePats compile raw.Exclude with
    | error eE =>
      rw [firstCompileError_append_some compile _ _ eE
        ((compilePats_error_iff compile _ eE).mp hE)]
      simp
    | ok msE =>
      rw [firstCompileError_append_none compile _ _ (compilePats_ok_none compile _ _ hE)]
      cases hR : compileRules compile raw.Rules with
      | error eR =>
        rw [(compileRules_error_iff compile _ eR).mp hR]
        simp
      | ok rs =>
        rw [compileRules_ok_none compile _ _ hR]
        simp

/-- Claim C8: if any include, exclude or rule content pattern fails to
compile, `parse` fails fast with the compile error of the first failing
pattern — the returned error's `expr` field identifies that pattern, whose
position is the first failing one in include, exclude, rule order — and no
definitions value (partial or otherwise) is returned. -/
theorem parse_fail_fast (compile : String → Except RegexError Matcher)
    (raw : RawDefs) (pre : List String) (p : String) (post : List String)
    (e : RegexError)
    (hexpr : ∀ s err, compile s = Except.error err → err.expr = s)
    (hsplit : allPatterns raw = pre ++ p :: post)
    (hpre : ∀ q ∈ pre, ∃ m, compile q = Except.ok m)
    (hp : compile p = Except.error e) :
    parse compile raw = Except.error e ∧ e.expr = p ∧
      ∀ d, parse compile raw ≠ Except.ok d := by
  have hfce : firstCompileError compile (allPatterns raw) = some e := by
    rw [hsplit]
    exact firstCompileError_append compile pre p post e hpre hp
  have herr : parse compile raw = Except.error e :=
    (parse_error_iff compile raw e).mpr hfce
  exact ⟨herr, hexpr p e hp, fun d hd => by rw [herr] at hd; exact absurd hd (by simp)⟩

/-- Sample compile function for the `parse` witness: every pattern compiles
to an exact-match matcher except the lone `"("`, which fails with an error
carrying the failing expression, as Go's `regexp.Error` does. -/
def compileW : String → Except RegexError Matcher := fun s =>
  if s = "(" then Except.error { expr := "(", msg := "missing closing paren" }
  else Except.ok (fun line => line == s)

/-- Sample raw configuration for the `parse` witness: a good include
pattern, no excludes, and a rule whose pattern does not compile. -/
def rawW : RawDefs :=
  { Include := ["good"], Exclude := [],
    Rules := [{ Pattern := "(", Expected := ["a.go"] }] }

/-- Witness for claim C8: `parse` on `rawW` fails with the compile error of
the rule pattern `"("`, the first (and only) failing pattern. -/
theorem parse_fail_fast_witness :
    parse compileW rawW = Except.error { expr := "(", msg := "missing closing paren" } ∧
    RegexError.expr { expr := "(", msg := "missing closing paren" } = "(" ∧
    ∀ d, parse compileW rawW ≠ Except.ok d :=
  parse_fail_fast compileW rawW ["good"] "(" [] _
    (by
      intro s err h
      by_cases hs : s = "("
      · subst hs
        simp only [compileW, if_pos rfl] at h
        cases h
        rfl
      · simp [compileW, hs] at h)
    (by decide)
    (by
      intro q hq
      simp only [List.mem_singleton] at hq
      rw [hq]
      exact ⟨_, rfl⟩)
    rfl

mutual
/-- In-memory model of the directory tree walked by `exploreDir`: an entry
is a regular file with its content, a regular file whose open or read
fails with an I/O error (`badFile`), a readable directory with its listed
entries, or a directory whose `ioutil.ReadDir` fails (`badDir`). -/
inductive FS where
  | file : String → FS
  | badFile : String → FS
  | dir : FSList → FS
  | badDir : String → FS
/-- The listing of one directory, in traversal order. -/
inductive FSList where
  | nil : FSList
  | cons : String → FS → FSList → FSList
end

/-- Concatenation of directory listings. -/
def FSList.append : FSList → FSList → FSList
  | FSList.nil, l => l
  | FSList.cons name fs rest, l => FSList.cons name fs (rest.append l)

/-- Models `filepath.Join(dirname, fi.Name())` (lidder.go line 157), up to
path cleaning, which no claim depends on. -/
def pathJoin (dirname name : String) : String :=
  dirname ++ "/" ++ name

mutual
/-- Embeds the switch body of the walk (lidder.go lines 158-171) for one
directory entry at its joined path: a sub-directory is recursed into (its
`ReadDir` failure, lines 151-154, is the `badDir` case), a regular file
passing `shouldCheck` is scanned, where `os.Open`/read failure
(`badFile`, lidder.go lines 131-134 and 142-143) propagates. -/
def exploreEntry (d : Defs) (path : String) : FS → Except String Defs
  | FS.file content =>
    if shouldCheck d path then Except.ok (matchAgainstFileP d path content)
    else Except.ok d
  | FS.badFile e =>
    if shouldCheck d path then Except.error e else Except.ok d
  | FS.dir entries => exploreDir d path entries
  | FS.badDir e => Except.error e
/-- Embeds the entry loop of `exploreDir` (lidder.go lines 156-172) over a
successfully read directory listing, aborting on the first error. -/
def exploreDir (d : Defs) (dirname : String) : FSList → Except String Defs
  | FSList.nil => Except.ok d
  | FSList.cons name fs rest =>
    match exploreEntry d (pathJoin dirname name) fs with
    | Except.error e => Except.error e
    | Except.ok d₁ => exploreDir d₁ dirname rest
end

mutual
/-- The `(path, content)` pairs of the regular files a walk of one entry
visits and scans, in traversal order, for a path filter `chk`. -/
def collectEntry (chk : String → Bool) (path : String) : FS → List (String × String)
  | FS.file content => if chk path then [(path, content)] else []
  | FS.badFile _ => []
  | FS.dir entries => collectDir chk path entries
  | FS.badDir _ => []
/-- The `(path, content)` pairs the walk of a directory listing scans. -/
def collectDir (chk : String → Bool) (dirname : String) : FSList → List (String × String)
  | FSList.nil => []
  | FSList.cons name fs rest =>
    collectEntry chk (pathJoin dirname name) fs ++ collectDir chk dirname rest
end

/-- Scanning a file never changes the compiled path filters. -/
theorem shouldCheck_matchAgainstFileP (d : Defs) (f c : String) :
    shouldCheck (matchAgainstFileP d f c) = shouldCheck d := by
  funext path
  rw [matchAgainstFileP_eq]
  rfl

/-- Scanning any file list never changes the compiled path filters. -/
theorem shouldCheck_scanFiles (d : Defs) (files : List (String × String)) :
    shouldCheck (scanFiles d files) = shouldCheck d := by
  induction files generalizing d with
  | nil => rfl
  | cons fc fcs ih =>
    show shouldCheck (scanFiles (matchAgainstFileP d fc.1 fc.2) fcs) = _
    rw [ih, shouldCheck_matchAgainstFileP]

/-- Scanning a concatenation scans the parts in order. -/
theorem scanFiles_append (d : Defs) (xs ys : List (String × String)) :
    scanFiles d (xs ++ ys) = scanFiles (scanFiles d xs) ys :=
  List.foldl_append _ _ xs ys

mutual
/-- A successful walk of one entry computes exactly the sequential scan of
the files it collects. -/
theorem exploreEntry_ok : ∀ (d : Defs) (path : String) (fs : FS) (d' : Defs),
    exploreEntry d path fs = Except.ok d' →
      d' = scanFiles d (collectEntry (shouldCheck d) path fs)
  | d, path, FS.file content, d', h => by
    by_cases hc : shouldCheck d path
    · simp only [exploreEntry, if_pos hc, Except.ok.injEq] at h
      rw [← h]
      simp only [collectEntry, if_pos hc]
      rfl
    · simp only [exploreEntry, if_neg hc, Except.ok.injEq] at h
      rw [← h]
      simp only [collectEntry, if_neg hc]
      rfl
  | d, path, FS.badFile e, d', h => by
    by_cases hc : shouldCheck d path
    · simp [exploreEntry, hc] at h
    · simp only [exploreEntry, if_neg hc, Except.ok.injEq] at h
      rw [← h]
      rfl
  | d, path, FS.dir entries, d', h => exploreDir_ok d path entries d' h
  | d, path, FS.badDir e, d', h => by simp [exploreEntry] at h

/-- A successful walk of a directory listing computes exactly the
sequential scan of the files it collects. -/
theorem exploreDir_ok : ∀ (d : Defs) (dirname : String) (l : FSList) (d' : Defs),
    exploreDir d dirname l = Except.ok d' →
      d' = scanFiles d (collectDir (shouldCheck d) dirname l)
  | d, dirname, FSList.nil, d', h => by
    cases h
    rfl
  | d, dirname, FSList.cons name fs rest, d', h => by
    cases hfs : exploreEntry d (pathJoin dirname name) fs with
    | error e => simp [exploreDir, hfs] at h
    | ok d₁ =>
      have h1 := exploreEntry_ok d (pathJoin dirname name) fs d₁ hfs
      have hrest : exploreDir d₁ dirname rest = Except.ok d' := by
        simp only [exploreDir, hfs] at h
        exact h
      have h2 := exploreDir_ok d₁ dirname rest d' hrest
      rw [h2, h1, shouldCheck_scanFiles]
      show scanFiles (scanFiles d _) _ = scanFiles d (collectDir (shouldCheck d) dirname (FSList.cons name fs rest))
      rw [show collectDir (shouldCheck d) dirname (FSList.cons name fs rest) = collectEntry (shouldCheck d) (pathJoin dirname name) fs ++ collectDir (shouldCheck d) dirname rest from rfl]
      rw [scanFiles_append]
end

/-- Claim C9: once processing one directory entry fails with an I/O error
(an unreadable sub-directory or an unopenable checked file), the whole
walk returns exactly that error: the entries after it are never visited —
they do not influence the result — and no definitions value (hence no
mismatch data) is produced. -/
theorem explore_error_aborts : ∀ (pre : FSList) (d d₁ : Defs)
    (dirname name : String) (fs : FS) (post : FSList) (e : String),
    exploreDir d dirname pre = Except.ok d₁ →
    exploreEntry d₁ (pathJoin dirname name) fs = Except.error e →
    exploreDir d dirname (FSList.append pre (FSList.cons name fs post)) =
      Except.error e
  | FSList.nil, d, d₁, dirname, name, fs, post, e, hpre, herr => by
    cases hpre
    show (match exploreEntry d (pathJoin dirname name) fs with
      | Except.error e => Except.error e
      | Except.ok d₂ => exploreDir d₂ dirname post) = Except.error e
    rw [herr]
  | FSList.cons n f rest, d, d₁, dirname, name, fs, post, e, hpre, herr => by
    cases hf : exploreEntry d (pathJoin dirname n) f with
    | error e' => simp [exploreDir, hf] at hpre
    | ok d₂ =>
      have hrest : exploreDir d₂ dirname rest = Except.ok d₁ := by
        simp only [exploreDir, hf] at hpre
        exact hpre
      show (match exploreEntry d (pathJoin dirname n) f with
        | Except.error e => Except.error e
        | Except.ok d₃ => exploreDir d₃ dirname (FSList.append rest (FSList.cons name fs post))) = Except.error e
      rw [hf]
      exact explore_error_aborts rest d₂ d₁ dirname name fs post e hrest herr

/-- Sample definitions value whose include filter accepts every path. -/
def defsAll : Defs :=
  { Include := [".*"], Exclude := [], Rules := []
    includeRe := [fun _ => true], excludeRe := [] }

/-- Witness for claim C9: after a successfully walked empty front segment,
an unreadable sub-directory aborts the walk with its error even though a
regular file entry follows it. -/
theorem explore_error_aborts_witness :
    exploreDir defsAll "." (FSList.append FSList.nil
      (FSList.cons "sub" (FS.badDir "boom")
        (FSList.cons "late.go" (FS.file "TODO\n") FSList.nil))) =
      Except.error "boom" :=
  explore_error_aborts FSList.nil defsAll defsAll "." "sub" (FS.badDir "boom")
    (FSList.cons "late.go" (FS.file "TODO\n") FSList.nil) "boom" rfl rfl

/-- Claim C7: reconciliation is independent of visitation order — scanning
any permutation of the same files yields the same state, hence identical
`Mismatches` for every rule, and two successful walks collecting the same
files up to order end in the same state. -/
theorem reconciliation_order_independent (d d₁ d₂ : Defs)
    (files₁ files₂ : List (String × String)) (root : String) (t₁ t₂ : FS)
    (hperm : List.Perm files₁ files₂)
    (h₁ : exploreEntry d root t₁ = Except.ok d₁)
    (h₂ : exploreEntry d root t₂ = Except.ok d₂)
    (hc : List.Perm (collectEntry (shouldCheck d) root t₁)
      (collectEntry (shouldCheck d) root t₂)) :
    scanFiles d files₁ = scanFiles d files₂ ∧
    (scanFiles d files₁).Rules.map Mismatches =
      (scanFiles d files₂).Rules.map Mismatches ∧
    d₁ = d₂ := by
  have hs := scanFiles_perm d files₁ files₂ hperm
  refine ⟨hs, by rw [hs], ?_⟩
  rw [exploreEntry_ok d root t₁ d₁ h₁, exploreEntry_ok d root t₂ d₂ h₂]
  exact scanFiles_perm d _ _ hc

/-- Witness for claim C7: two orderings of the same two files, and two
trees listing directory entries in different orders whose checked-file
collections agree up to order. -/
theorem reconciliation_order_independent_witness :
    scanFiles defsML [("a.go", "x\n"), ("b.go", "y\n")] =
      scanFiles defsML [("b.go", "y\n"), ("a.go", "x\n")] ∧
    (scanFiles defsML [("a.go", "x\n"), ("b.go", "y\n")]).Rules.map Mismatches =
      (scanFiles defsML [("b.go", "y\n"), ("a.go", "x\n")]).Rules.map Mismatches ∧
    defsML = defsML :=
  reconciliation_order_independent defsML defsML defsML
    [("a.go", "x\n"), ("b.go", "y\n")] [("b.go", "y\n"), ("a.go", "x\n")]
    "." (FS.dir (FSList.cons "a" (FS.file "x\n") FSList.nil))
    (FS.dir (FSList.cons "b" (FS.file "y\n") FSList.nil))
    (by decide) rfl rfl (by decide)

end Lidder
